/-
Verification of the projection-matrix retrieval notebook against its
natural-language specification.

The notebook's numeric values are torch float32 tensors; this development
models them as exact rationals (ℚ), and embeddings as functions
`Fin D → ℚ` for a fixed dimension `D` (the spec's invariant: every
embedding of a run has exactly `D` components).  The external
sentence-transformer model (`model.encode`) is a parameter
`encode : String → Fin D → ℚ`, since the embedding model is an external
black box.
-/
import Mathlib

set_option autoImplicit false
set_option linter.unnecessarySeqFocus false

namespace Exercise

/-- One dataset record: a query string and the ordered list of code
snippets deemed relevant to it.  From the source `@dataclass Example`. -/
structure Example where
  user_input : String
  snippets : List String
deriving DecidableEq

/-- Source `embed`: calls the external model once and returns its vector
(`model.encode([text])[0]`, converted to a tensor).  The model itself is
the parameter `encode`. -/
def embed {D : ℕ} (encode : String → Fin D → ℚ) (text : String) : Fin D → ℚ :=
  encode text

/-- Source `similarity`: dot product of the two embeddings
(`a @ b` with `a = embed(x_i)`, `b = embed(x_c)`). -/
def similarity {D : ℕ} (encode : String → Fin D → ℚ) (x_i x_c : String) : ℚ :=
  Matrix.dotProduct (embed encode x_i) (embed encode x_c)

/-- Source `similarity_with_projection`: `(a @ P) @ b`, the row vector
`a = embed(x_i)` right-multiplied by the D×D matrix `P`, then dotted
with `b = embed(x_c)`. -/
def similarity_with_projection {D : ℕ} (encode : String → Fin D → ℚ)
    (x_i x_c : String) (P : Matrix (Fin D) (Fin D) ℚ) : ℚ :=
  Matrix.dotProduct (Matrix.vecMul (embed encode x_i) P) (embed encode x_c)

/-- Source constant `threshold = 0.7` used by the pair-construction cell. -/
def threshold : ℚ := 7/10

/-- Source pair-construction cell: for every example and every snippet of
that same example, append `(user_input, snippet, 1)` if
`similarity(user_input, snippet) > threshold` else label `0`. -/
def example_pairs {D : ℕ} (encode : String → Fin D → ℚ)
    (dataset : List Example) : List (String × String × ℤ) :=
  dataset.flatMap fun e =>
    e.snippets.map fun snippet =>
      (e.user_input, snippet,
        if similarity encode e.user_input snippet > threshold then (1 : ℤ) else 0)

/-- Source `retrieve_relevant_snippets`: embed the query, project it once
(`user_embedding @ P`), then append `(snippet, score)` for every snippet
of `all_snippets` in corpus order; the list is returned as built, with
no sorting step. -/
def retrieve_relevant_snippets {D : ℕ} (encode : String → Fin D → ℚ)
    (P : Matrix (Fin D) (Fin D) ℚ) (all_snippets : List String)
    (user_input : String) : List (String × ℚ) :=
  let user_embedding := embed encode user_input
  let projected_user_embedding := Matrix.vecMul user_embedding P
  all_snippets.map fun snippet =>
    (snippet, Matrix.dotProduct projected_user_embedding (embed encode snippet))

/-- The loop of source `average_precision`: walk the retrieved items with
1-indexed position `i`, and at every item belonging to `relevant_set`
increment `relevant_count` and add `relevant_count / i` to
`precision_sum`.  Membership in the Python `set(relevant_items)` is list
membership. -/
def apScan (relevant_set : List String) :
    List (String × ℚ) → ℕ → ℕ → ℚ → ℚ
  | [], _, _, precision_sum => precision_sum
  | (item, _) :: rest, i, relevant_count, precision_sum =>
    if item ∈ relevant_set then
      apScan relevant_set rest (i + 1) (relevant_count + 1)
        (precision_sum + ((relevant_count + 1 : ℕ) : ℚ) / (i : ℚ))
    else
      apScan relevant_set rest (i + 1) relevant_count precision_sum

/-- Source `average_precision`: the scan above, divided by
`len(relevant_items)`, or `0` when `relevant_items` is empty. -/
def average_precision (relevant_items : List String)
    (retrieved_items : List (String × ℚ)) : ℚ :=
  if relevant_items.isEmpty then 0
  else apScan relevant_items retrieved_items 1 0 0 / (relevant_items.length : ℚ)

/-- The accumulation loop of source `evaluate_retrieval_strategy`:
`total_ap` and `num_queries`, both updated once per example (no skips). -/
def evalFold (strategy : String → List (String × ℚ))
    (dataset : List Example) : ℚ × ℕ :=
  dataset.foldl
    (fun acc e =>
      (acc.1 + average_precision e.snippets (strategy e.user_input), acc.2 + 1))
    (0, 0)

/-- Source `map_score = total_ap / num_queries if num_queries > 0 else 0`. -/
def mapScore (strategy : String → List (String × ℚ))
    (dataset : List Example) : ℚ :=
  let t := evalFold strategy dataset
  if t.2 > 0 then t.1 / (t.2 : ℚ) else 0

/-- Round to nearest integer, ties to even, modelling the rounding of
Python's fixed-point float formatting on our exact rationals. -/
def roundHalfEven (x : ℚ) : ℤ :=
  let f := ⌊x⌋
  let r := x - f
  if r < 1/2 then f
  else if r > 1/2 then f + 1
  else if 2 ∣ f then f else f + 1

/-- Left-pad the decimal digits of `n` with zeros to width 4. -/
def pad4 (n : ℕ) : String :=
  let s := toString n
  String.mk (List.replicate (4 - s.length) '0') ++ s

/-- Model of Python's `f"{x:.4f}"` on an exact rational: the value rounded
to 4 decimal places, printed with sign, integer part and a 4-digit
fractional part. -/
def formatFixed4 (x : ℚ) : String :=
  let n := roundHalfEven (x * 10000)
  let sign := if n < 0 then "-" else ""
  let m := n.natAbs
  sign ++ toString (m / 10000) ++ "." ++ pad4 (m % 10000)

/-- Source `evaluate_retrieval_strategy`: computes `map_score` and returns
the formatted report string (an f-string, not the float itself). -/
def evaluate_retrieval_strategy (strategy : String → List (String × ℚ))
    (dataset : List Example) : String :=
  "Mean Average Precision (MAP): " ++ formatFixed4 (mapScore strategy dataset)

/-- One execution of the source `embed` function together with the list of
external provider invocations it performs.  The body of `embed` calls
`model.encode([text])` unconditionally, exactly once, with no lookup in
any store, so each execution performs exactly one provider call. -/
def embedWithCalls {D : ℕ} (encode : String → Fin D → ℚ) (text : String) :
    (Fin D → ℚ) × List String :=
  (embed encode text, [text])

/-- Sequential execution of a series of `embed` lookups, returning the
results in order together with the concatenated provider-invocation log. -/
def runEmbedLookups {D : ℕ} (encode : String → Fin D → ℚ) :
    List String → List (Fin D → ℚ) × List String
  | [] => ([], [])
  | t :: ts =>
    let r := embedWithCalls encode t
    let rest := runEmbedLookups encode ts
    (r.1 :: rest.1, r.2 ++ rest.2)

/-- Model of a torch float32 scalar as it is consumed by the training
loop: either an exact finite value, one of the two infinities, or NaN. -/
inductive FVal where
  | fin : ℚ → FVal
  | inf : FVal
  | neginf : FVal
  | nan : FVal
deriving DecidableEq

/-- IEEE-style addition on `FVal` (exact in the finite case): NaN is
absorbing, and opposite infinities give NaN. -/
def FVal.add : FVal → FVal → FVal
  | nan, _ => nan
  | _, nan => nan
  | inf, neginf => nan
  | neginf, inf => nan
  | inf, _ => inf
  | _, inf => inf
  | neginf, _ => neginf
  | _, neginf => neginf
  | fin a, fin b => fin (a + b)

/-- Division of an `FVal` by a natural count (the `val_loss.item() /
len(val_pairs)` step).  The source raises `ZeroDivisionError` for a zero
count, so this total model is only meaningful for positive counts. -/
def FVal.divNat : FVal → ℕ → FVal
  | fin q, n => fin (q / (n : ℚ))
  | inf, _ => inf
  | neginf, _ => neginf
  | nan, _ => nan

/-- True exactly on finite values (neither NaN nor an infinity). -/
def FVal.isFinite : FVal → Bool
  | fin _ => true
  | _ => false

/-- Sum of a list of `FVal`s. -/
def FVal.sum (l : List FVal) : FVal :=
  l.foldr FVal.add (FVal.fin 0)

/-- A training-loop pair as produced by the pair-construction cell:
`(user input, code snippet, label)`. -/
def Pair : Type := String × String × ℤ

/-- The mutable state threaded through the source training loop: the
projection matrix `P`, its accumulated gradient `P.grad`, the
`torch.optim.Adam` optimizer state (abstract type `σ`), and the sequence
of per-epoch validation losses printed so far. -/
structure TrainState (σ : Type) (D : ℕ) where
  P : Matrix (Fin D) (Fin D) ℚ
  grad : Matrix (Fin D) (Fin D) ℚ
  opt : σ
  log : List FVal

/-- The inner training loop of one epoch: `for pair in train_pairs:
loss.backward()`.  Autograd's effect is to add the gradient of that
pair's loss, taken at the current matrix, into the accumulated gradient;
`gradOf pair P` is that per-pair contribution (autograd and the loss are
external torch machinery).  Nothing in the inner loop writes `P`, so the
matrix stays fixed throughout the phase. -/
def trainPhase {D : ℕ} (gradOf : Pair → Matrix (Fin D) (Fin D) ℚ → Matrix (Fin D) (Fin D) ℚ)
    (train_pairs : List Pair) (P grad : Matrix (Fin D) (Fin D) ℚ) :
    Matrix (Fin D) (Fin D) ℚ :=
  train_pairs.foldl (fun g pair => g + gradOf pair P) grad

/-- The validation loop of one epoch: `val_loss = 0; for pair in
val_pairs: val_loss += loss_func(...)`, where `lossOf pair P` is the
per-pair loss value `loss_func(similarity_with_projection(x_i, x_c, P),
y)` (the loss and similarity evaluation on float tensors, modelled as an
`FVal`-valued parameter).  The loop only reads `P`. -/
def valPhase {D : ℕ} (lossOf : Pair → Matrix (Fin D) (Fin D) ℚ → FVal)
    (val_pairs : List Pair) (P : Matrix (Fin D) (Fin D) ℚ) : FVal :=
  val_pairs.foldl (fun acc pair => acc.add (lossOf pair P)) (FVal.fin 0)

/-- One iteration of the source training loop, line by line:
`optimizer.zero_grad()`; the training phase accumulating gradients;
one `optimizer.step()` (the external Adam update, abstracted as
`optStep state grad P`); then the validation phase and the printed value
`val_loss.item() / len(val_pairs)` appended to the log. -/
def trainEpoch {σ : Type} {D : ℕ}
    (gradOf : Pair → Matrix (Fin D) (Fin D) ℚ → Matrix (Fin D) (Fin D) ℚ)
    (lossOf : Pair → Matrix (Fin D) (Fin D) ℚ → FVal)
    (optStep : σ → Matrix (Fin D) (Fin D) ℚ → Matrix (Fin D) (Fin D) ℚ →
      Matrix (Fin D) (Fin D) ℚ × σ)
    (train_pairs val_pairs : List Pair) (st : TrainState σ D) : TrainState σ D :=
  let grad1 := trainPhase gradOf train_pairs st.P 0
  let stepped := optStep st.opt grad1 st.P
  let printed := (valPhase lossOf val_pairs stepped.1).divNat val_pairs.length
  ⟨stepped.1, grad1, stepped.2, st.log ++ [printed]⟩

/-- The source training loop: `for epoch in range(num_epochs)` running
`trainEpoch` each iteration, with no conditional exit of any kind. -/
def trainLoop {σ : Type} {D : ℕ}
    (gradOf : Pair → Matrix (Fin D) (Fin D) ℚ → Matrix (Fin D) (Fin D) ℚ)
    (lossOf : Pair → Matrix (Fin D) (Fin D) ℚ → FVal)
    (optStep : σ → Matrix (Fin D) (Fin D) ℚ → Matrix (Fin D) (Fin D) ℚ →
      Matrix (Fin D) (Fin D) ℚ × σ)
    (train_pairs val_pairs : List Pair) :
    ℕ → TrainState σ D → TrainState σ D
  | 0, st => st
  | n + 1, st =>
    trainLoop gradOf lossOf optStep train_pairs val_pairs n
      (trainEpoch gradOf lossOf optStep train_pairs val_pairs st)

/-! ### Helper lemmas about the average-precision scan -/

/-- The scan never drives the accumulator below zero. -/
theorem apScan_nonneg (rs : List String) (l : List (String × ℚ)) :
    ∀ (i c : ℕ) (s : ℚ), 0 ≤ s → 0 ≤ apScan rs l i c s := by
  induction l with
  | nil => intro i c s hs; simpa [apScan] using hs
  | cons hd tl ih =>
    intro i c s hs
    obtain ⟨item, score⟩ := hd
    by_cases h : item ∈ rs
    · simp only [apScan, if_pos h]
      exact ih _ _ _ (add_nonneg hs (div_nonneg (Nat.cast_nonneg _) (Nat.cast_nonneg _)))
    · simp only [apScan, if_neg h]
      exact ih _ _ _ hs

/-- Each hit contributes at most `1` to the accumulator, as long as the
running count stays below the 1-indexed position. -/
theorem apScan_le_hits (rs : List String) (l : List (String × ℚ)) :
    ∀ (i c : ℕ) (s : ℚ), c < i →
      apScan rs l i c s ≤ s + (((l.filter fun p => p.1 ∈ rs).length : ℕ) : ℚ) := by
  induction l with
  | nil => intro i c s _; simp [apScan]
  | cons hd tl ih =>
    intro i c s hci
    obtain ⟨item, score⟩ := hd
    by_cases h : item ∈ rs
    · rw [List.filter_cons_of_pos (by simpa using h)]
      simp only [apScan, if_pos h, List.length_cons]
      have hterm : (((c + 1 : ℕ)) : ℚ) / (i : ℚ) ≤ 1 := by
        apply div_le_one_of_le₀
        · exact_mod_cast Nat.succ_le_of_lt hci
        · exact Nat.cast_nonneg _
      have hrec := ih (i + 1) (c + 1) (s + (((c + 1 : ℕ)) : ℚ) / (i : ℚ)) (by omega)
      refine hrec.trans ?_
      push_cast at hterm hrec ⊢
      linarith
    · rw [List.filter_cons_of_neg (by simpa using h)]
      simp only [apScan, if_neg h]
      exact ih (i + 1) c s (by omega)

/-- When the retrieved passages are pairwise distinct, the number of hits
is at most the number of relevant items. -/
theorem filter_hits_le (rs : List String) (l : List (String × ℚ))
    (hnd : (l.map Prod.fst).Nodup) :
    (l.filter fun p => p.1 ∈ rs).length ≤ rs.length := by
  classical
  have hsub : (l.filter fun p => decide (p.1 ∈ rs)).Sublist l := List.filter_sublist l
  have hndl : ((l.filter fun p => decide (p.1 ∈ rs)).map Prod.fst).Nodup :=
    (hsub.map Prod.fst).nodup hnd
  have hmem : ∀ x ∈ (l.filter fun p => decide (p.1 ∈ rs)).map Prod.fst, x ∈ rs := by
    intro x hx
    rcases List.mem_map.mp hx with ⟨p, hp, rfl⟩
    exact of_decide_eq_true (List.mem_filter.mp hp).2
  have h1 : ((l.filter fun p => decide (p.1 ∈ rs)).map Prod.fst).length ≤ rs.length := by
    calc ((l.filter fun p => decide (p.1 ∈ rs)).map Prod.fst).length
        = ((l.filter fun p => decide (p.1 ∈ rs)).map Prod.fst).toFinset.card :=
          (List.toFinset_card_of_nodup hndl).symm
      _ ≤ rs.toFinset.card := by
          apply Finset.card_le_card
          intro x hx
          exact List.mem_toFinset.mpr (hmem x (List.mem_toFinset.mp hx))
      _ ≤ rs.length := rs.toFinset_card_le
  simpa using h1

/-- Scanning a block in which every passage is relevant: every position is
a hit, each contributing exactly `1` when the count equals the position. -/
theorem apScan_all_hit (rs : List String) (front : List (String × ℚ)) :
    ∀ (back : List (String × ℚ)) (i c : ℕ) (s : ℚ),
      (∀ p ∈ front, p.1 ∈ rs) → c + 1 = i →
      apScan rs (front ++ back) i c s
        = apScan rs back (i + front.length) (c + front.length)
            (s + (front.length : ℚ)) := by
  induction front with
  | nil => intro back i c s _ _; simp [apScan]
  | cons hd tl ih =>
    intro back i c s hall hci
    obtain ⟨item, score⟩ := hd
    have hmem : item ∈ rs := hall (item, score) (List.mem_cons_self _ _)
    have hiq : (((c + 1 : ℕ)) : ℚ) / (i : ℚ) = 1 := by
      rw [hci]
      exact div_self (Nat.cast_ne_zero.mpr (by omega))
    simp only [List.cons_append, apScan, if_pos hmem, List.append_eq, List.length_cons]
    rw [ih back (i + 1) (c + 1) _ (fun p hp => hall p (List.mem_cons_of_mem _ hp)) (by omega)]
    rw [hiq]
    have h1 : i + 1 + tl.length = i + (tl.length + 1) := by omega
    have h2 : c + 1 + tl.length = c + (tl.length + 1) := by omega
    rw [h1, h2]
    congr 1
    push_cast
    ring

/-- Scanning a block in which no passage is relevant leaves the
accumulator unchanged. -/
theorem apScan_all_miss (rs : List String) (back : List (String × ℚ)) :
    ∀ (i c : ℕ) (s : ℚ), (∀ p ∈ back, p.1 ∉ rs) →
      apScan rs back i c s = s := by
  induction back with
  | nil => intro i c s _; simp [apScan]
  | cons hd tl ih =>
    intro i c s hall
    obtain ⟨item, score⟩ := hd
    have hmem : item ∉ rs := hall (item, score) (List.mem_cons_self _ _)
    simp only [apScan, if_neg hmem]
    exact ih _ _ _ (fun p hp => hall p (List.mem_cons_of_mem _ hp))

/-- The scan reads only the passage identifiers, never the scores. -/
theorem apScan_fst_congr (rs : List String) :
    ∀ (l₁ l₂ : List (String × ℚ)), l₁.map Prod.fst = l₂.map Prod.fst →
      ∀ (i c : ℕ) (s : ℚ), apScan rs l₁ i c s = apScan rs l₂ i c s := by
  intro l₁
  induction l₁ with
  | nil =>
    intro l₂ h i c s
    rw [List.eq_nil_of_map_eq_nil h.symm]
  | cons hd tl ih =>
    intro l₂ h i c s
    cases l₂ with
    | nil => simp at h
    | cons hd₂ tl₂ =>
      obtain ⟨item, score⟩ := hd
      obtain ⟨item₂, score₂⟩ := hd₂
      simp only [List.map_cons, List.cons.injEq] at h
      obtain ⟨hfst, htl⟩ := h
      subst hfst
      by_cases hm : item ∈ rs
      · simp only [apScan, if_pos hm]
        exact ih tl₂ htl _ _ _
      · simp only [apScan, if_neg hm]
        exact ih tl₂ htl _ _ _

/-! ### Helper lemmas about the evaluator fold and the training loop -/

/-- The accumulation loop of `evaluate_retrieval_strategy` computes the sum
of the per-example average precisions and the number of examples. -/
theorem evalFold_eq (strategy : String → List (String × ℚ)) (dataset : List Example) :
    evalFold strategy dataset =
      ((dataset.map fun e => average_precision e.snippets (strategy e.user_input)).sum,
        dataset.length) := by
  suffices h : ∀ (a : ℚ) (n : ℕ),
      dataset.foldl
        (fun acc e =>
          (acc.1 + average_precision e.snippets (strategy e.user_input), acc.2 + 1))
        (a, n) =
      (a + (dataset.map fun e => average_precision e.snippets (strategy e.user_input)).sum,
        n + dataset.length) by
    simpa [evalFold] using h 0 0
  induction dataset with
  | nil => intro a n; simp
  | cons e tl ih =>
    intro a n
    simp only [List.foldl_cons, List.map_cons, List.sum_cons, List.length_cons]
    rw [ih]
    refine Prod.ext ?_ ?_
    · ring
    · omega

/-- `FVal.add` has `fin 0` as a right identity. -/
theorem FVal.add_fin_zero (a : FVal) : a.add (FVal.fin 0) = a := by
  cases a <;> simp [FVal.add]

/-- `FVal.add` is associative. -/
theorem FVal.add_assoc (a b c : FVal) : (a.add b).add c = a.add (b.add c) := by
  cases a <;> cases b <;> cases c <;> simp only [FVal.add] <;> ring_nf

/-- Folding `FVal.add` from the left is addition of the list sum. -/
theorem FVal.foldl_add (l : List FVal) :
    ∀ a : FVal, l.foldl FVal.add a = a.add (FVal.sum l) := by
  induction l with
  | nil => intro a; simp [FVal.sum, FVal.add_fin_zero]
  | cons x xs ih =>
    intro a
    simp only [List.foldl_cons, FVal.sum, List.foldr_cons]
    rw [ih (a.add x), FVal.add_assoc]
    rfl

/-- The validation loop computes the `FVal` sum of the per-pair losses at
the matrix it is given. -/
theorem valPhase_eq_sum {D : ℕ} (lossOf : Pair → Matrix (Fin D) (Fin D) ℚ → FVal)
    (val_pairs : List Pair) (P : Matrix (Fin D) (Fin D) ℚ) :
    valPhase lossOf val_pairs P = FVal.sum (val_pairs.map fun pair => lossOf pair P) := by
  unfold valPhase
  rw [← List.foldl_map (fun pair => lossOf pair P) FVal.add val_pairs (FVal.fin 0)]
  rw [FVal.foldl_add]
  cases FVal.sum (val_pairs.map fun pair => lossOf pair P) <;> simp [FVal.add]

/-- The gradient-accumulation loop of one epoch sums the per-pair gradient
contributions, all taken at the single matrix it is given, on top of the
incoming accumulator. -/
theorem trainPhase_eq_sum {D : ℕ}
    (gradOf : Pair → Matrix (Fin D) (Fin D) ℚ → Matrix (Fin D) (Fin D) ℚ)
    (train_pairs : List Pair) (P : Matrix (Fin D) (Fin D) ℚ) :
    ∀ ginit : Matrix (Fin D) (Fin D) ℚ,
      trainPhase gradOf train_pairs P ginit
        = ginit + (train_pairs.map fun pair => gradOf pair P).sum := by
  induction train_pairs with
  | nil => intro g; simp [trainPhase]
  | cons pr tl ih =>
    intro g
    simp only [trainPhase, List.foldl_cons, List.map_cons, List.sum_cons] at ih ⊢
    rw [ih (g + gradOf pr P), add_assoc]

/-! ### Claim theorems -/

/-- C1.  The pair-construction cell does not implement ground-truth
labelling: for a dataset with one example whose single snippet has
similarity `0 ≤ 0.7` to its own query, the emitted pair is
`("q", "s", 0)` — a passage of the query's own relevant set labelled `0`
by thresholding the similarity score, where the claim (and the
notebook's own instructions) require the positive pair `("q", "s", 1)`.
No cross-example negative is ever emitted. -/
theorem c1_threshold_labeling :
    example_pairs (D := 1) (fun _ _ => 0) [⟨"q", ["s"]⟩] = [("q", "s", 0)]
    ∧ "s" ∈ (Example.mk "q" ["s"]).snippets := by
  constructor
  · norm_num [example_pairs, similarity, embed, threshold, Matrix.dotProduct]
  · simp

/-- C2.  `retrieve_relevant_snippets` returns the scored corpus in its
original order without sorting: with the identity projection and a
corpus in which the second snippet scores strictly higher than the
first, the returned list is `[("a", 0), ("b", 1)]`, which is not in
descending score order (it is not even non-increasing). -/
theorem c2_unsorted_output :
    retrieve_relevant_snippets (D := 1) (fun s _ => if s = "a" then 0 else 1) 1
        ["a", "b"] "q" = [("a", 0), ("b", 1)]
    ∧ ¬ List.Chain' (fun p q : String × ℚ => q.2 ≤ p.2)
        [("a", (0 : ℚ)), ("b", (1 : ℚ))] := by
  constructor
  · norm_num [retrieve_relevant_snippets, embed, Matrix.dotProduct, Matrix.vecMul_one]
    decide
  · intro h
    rcases h with _ | ⟨hle, _⟩
    · exact absurd (by assumption : ((1 : ℚ) ≤ 0)) (by norm_num)

/-- C4 counterexample.  Two consecutive `embed` lookups of the identical
string `"a"` invoke the external provider twice: the invocation log is
`["a", "a"]`, so the provider is called more than once for one distinct
string, contradicting the claimed memoization. -/
theorem c4_counterexample :
    ((runEmbedLookups (D := 1) (fun _ _ => 0) ["a", "a"]).2).count "a" = 2 := by
  rfl

/-- C4 (amended).  `embed` performs no caching whatsoever: executing any
sequence of lookups invokes the external provider exactly once per
lookup — the invocation log equals the lookup sequence itself — and each
result is recomputed via the provider. -/
theorem c4_no_cache {D : ℕ} (encode : String → Fin D → ℚ) (texts : List String) :
    (runEmbedLookups encode texts).2 = texts
    ∧ (runEmbedLookups encode texts).1 = texts.map (embed encode) := by
  induction texts with
  | nil => simp [runEmbedLookups]
  | cons t ts ih =>
    simp only [runEmbedLookups, embedWithCalls, List.map_cons]
    exact ⟨by simp [ih.1], by simp [ih.2]⟩

/-- C7.  Identity reduction: with `P` the identity matrix, the projected
similarity equals the plain dot-product similarity exactly (the rational
model is exact, which implies agreement within any floating-point
tolerance). -/
theorem c7_identity_reduction {D : ℕ} (encode : String → Fin D → ℚ)
    (x_i x_c : String) :
    similarity_with_projection encode x_i x_c 1 = similarity encode x_i x_c := by
  simp [similarity_with_projection, similarity, Matrix.vecMul_one]

/-- C10.  `average_precision` depends only on the sequence of retrieved
passage identifiers: two retrieved lists whose identifier sequences
coincide yield the same score, regardless of the numeric scores
attached. -/
theorem c10_score_independence (relevant_items : List String)
    (r₁ r₂ : List (String × ℚ)) (h : r₁.map Prod.fst = r₂.map Prod.fst) :
    average_precision relevant_items r₁ = average_precision relevant_items r₂ := by
  unfold average_precision
  rcases hrel : relevant_items.isEmpty with _ | _
  · simp only [hrel, if_false, Bool.false_eq_true]
    rw [apScan_fst_congr relevant_items r₁ r₂ h]
  · simp [hrel]

/-- C10 witness: the same passage retrieved with score `5` or with score
`7` yields the same average precision. -/
theorem c10_witness :
    ([("a", (5 : ℚ))].map Prod.fst = [("a", (7 : ℚ))].map Prod.fst)
    ∧ average_precision ["a"] [("a", 5)] = average_precision ["a"] [("a", 7)] :=
  ⟨by simp, c10_score_independence ["a"] [("a", 5)] [("a", 7)] (by simp)⟩

/-- C5 counterexample.  A run in which the external loss evaluates to NaN
on the single validation pair: the epoch-0 report is already NaN (not
finite), yet the loop still executes epoch 1 and reports NaN again — it
silently continues, and no divergence error interrupts it. -/
theorem c5_counterexample :
    (trainLoop (σ := Unit) (D := 1) (fun _ _ => 0) (fun _ _ => FVal.nan)
        (fun s _ P => (P, s)) [] [("q", "c", 0)] 2 ⟨0, 0, (), []⟩).log
      = [FVal.nan, FVal.nan]
    ∧ FVal.nan.isFinite = false := by
  refine ⟨?_, rfl⟩
  rfl

/-- C5 (amended).  The training loop contains no finiteness check and no
divergence-error path: whatever values the per-pair losses take
(including NaN or infinities), it runs all `num_epochs` epochs and
reports one validation loss per epoch. -/
theorem c5_no_divergence_check {σ : Type} {D : ℕ}
    (gradOf : Pair → Matrix (Fin D) (Fin D) ℚ → Matrix (Fin D) (Fin D) ℚ)
    (lossOf : Pair → Matrix (Fin D) (Fin D) ℚ → FVal)
    (optStep : σ → Matrix (Fin D) (Fin D) ℚ → Matrix (Fin D) (Fin D) ℚ →
      Matrix (Fin D) (Fin D) ℚ × σ)
    (train_pairs val_pairs : List Pair) (num_epochs : ℕ) (st : TrainState σ D) :
    (trainLoop gradOf lossOf optStep train_pairs val_pairs num_epochs st).log.length
      = st.log.length + num_epochs := by
  induction num_epochs generalizing st with
  | zero => simp [trainLoop]
  | succ n ih =>
    simp only [trainLoop]
    rw [ih]
    simp [trainEpoch]
    omega

/-- C8.  Full-batch accumulation: in each epoch the accumulated gradient
is the sum of the per-pair contributions of all training pairs, every
contribution taken at the epoch-start matrix (no per-pair updates), the
accumulator starts from a single zero reset (the result is independent
of whatever gradient was left from the previous epoch), and exactly one
optimizer step — applied to that full sum — produces the next matrix and
optimizer state. -/
theorem c8_full_batch_epoch {σ : Type} {D : ℕ}
    (gradOf : Pair → Matrix (Fin D) (Fin D) ℚ → Matrix (Fin D) (Fin D) ℚ)
    (lossOf : Pair → Matrix (Fin D) (Fin D) ℚ → FVal)
    (optStep : σ → Matrix (Fin D) (Fin D) ℚ → Matrix (Fin D) (Fin D) ℚ →
      Matrix (Fin D) (Fin D) ℚ × σ)
    (train_pairs val_pairs : List Pair) (st : TrainState σ D) :
    (trainEpoch gradOf lossOf optStep train_pairs val_pairs st).grad
        = (train_pairs.map fun pair => gradOf pair st.P).sum
    ∧ (trainEpoch gradOf lossOf optStep train_pairs val_pairs st).P
        = (optStep st.opt ((train_pairs.map fun pair => gradOf pair st.P).sum) st.P).1
    ∧ (trainEpoch gradOf lossOf optStep train_pairs val_pairs st).opt
        = (optStep st.opt ((train_pairs.map fun pair => gradOf pair st.P).sum) st.P).2 := by
  have hg : trainPhase gradOf train_pairs st.P 0
      = (train_pairs.map fun pair => gradOf pair st.P).sum := by
    rw [trainPhase_eq_sum]
    exact zero_add _
  refine ⟨?_, ?_, ?_⟩ <;> simp [trainEpoch, hg]

/-- C9.  The reported validation loss of an epoch is the mean of the
per-pair losses over the validation subset, each evaluated at the
matrix produced by that epoch's parameter update; and the validation
pairs have no effect on the resulting matrix, gradient or optimizer
state (swapping the validation subset changes none of them). -/
theorem c9_validation_frame {σ : Type} {D : ℕ}
    (gradOf : Pair → Matrix (Fin D) (Fin D) ℚ → Matrix (Fin D) (Fin D) ℚ)
    (lossOf : Pair → Matrix (Fin D) (Fin D) ℚ → FVal)
    (optStep : σ → Matrix (Fin D) (Fin D) ℚ → Matrix (Fin D) (Fin D) ℚ →
      Matrix (Fin D) (Fin D) ℚ × σ)
    (train_pairs : List Pair) (st : TrainState σ D) :
    (∀ val_pairs : List Pair, val_pairs ≠ [] →
      (trainEpoch gradOf lossOf optStep train_pairs val_pairs st).log
        = st.log ++ [FVal.divNat
            (FVal.sum (val_pairs.map fun pair =>
              lossOf pair (trainEpoch gradOf lossOf optStep train_pairs val_pairs st).P))
            val_pairs.length])
    ∧ (∀ vp₁ vp₂ : List Pair,
        (trainEpoch gradOf lossOf optStep train_pairs vp₁ st).P
            = (trainEpoch gradOf lossOf optStep train_pairs vp₂ st).P
        ∧ (trainEpoch gradOf lossOf optStep train_pairs vp₁ st).grad
            = (trainEpoch gradOf lossOf optStep train_pairs vp₂ st).grad
        ∧ (trainEpoch gradOf lossOf optStep train_pairs vp₁ st).opt
            = (trainEpoch gradOf lossOf optStep train_pairs vp₂ st).opt) := by
  constructor
  · intro val_pairs _
    simp only [trainEpoch]
    rw [valPhase_eq_sum]
  · intro vp₁ vp₂
    exact ⟨rfl, rfl, rfl⟩

/-- C9 witness: one validation pair with loss `2` at every matrix, an
optimizer step that keeps the matrix; the epoch reports `2 / 1`, and
swapping the validation set for an empty one leaves matrix, gradient and
optimizer state untouched. -/
theorem c9_witness :
    (([("q", "c", 1)] : List Pair) ≠ []
      ∧ (trainEpoch (σ := Unit) (D := 1) (fun _ _ => 0) (fun _ _ => FVal.fin 2)
          (fun s _ P => (P, s)) [] [("q", "c", 1)] ⟨0, 0, (), []⟩).log
        = ([] : List FVal) ++ [FVal.divNat
            (FVal.sum (([("q", "c", 1)] : List Pair).map fun pair =>
              (fun (_ : Pair) (_ : Matrix (Fin 1) (Fin 1) ℚ) => FVal.fin 2) pair
                (trainEpoch (σ := Unit) (D := 1) (fun _ _ => 0) (fun _ _ => FVal.fin 2)
                  (fun s _ P => (P, s)) [] [("q", "c", 1)] ⟨0, 0, (), []⟩).P))
            ([("q", "c", 1)] : List Pair).length])
    ∧ (trainEpoch (σ := Unit) (D := 1) (fun _ _ => 0) (fun _ _ => FVal.fin 2)
          (fun s _ P => (P, s)) [] [("q", "c", 1)] ⟨0, 0, (), []⟩).P
        = (trainEpoch (σ := Unit) (D := 1) (fun _ _ => 0) (fun _ _ => FVal.fin 2)
          (fun s _ P => (P, s)) [] [] ⟨0, 0, (), []⟩).P := by
  constructor
  · refine ⟨by simp, ?_⟩
    exact (c9_validation_frame (σ := Unit) (D := 1) (fun _ _ => 0) (fun _ _ => FVal.fin 2)
      (fun s _ P => (P, s)) [] ⟨0, 0, (), []⟩).1 [("q", "c", 1)] (by simp)
  · exact ((c9_validation_frame (σ := Unit) (D := 1) (fun _ _ => 0) (fun _ _ => FVal.fin 2)
      (fun s _ P => (P, s)) [] ⟨0, 0, (), []⟩).2 [("q", "c", 1)] []).1

/-- C3 counterexample.  `evaluate_retrieval_strategy` does not return a
float equal to the mean of the per-example average precisions: on a
one-example dataset whose average precision is `1/3` it returns the
string `"Mean Average Precision (MAP): 0.3333"`, whose reported numeric
content `0.3333` differs from the true mean `1/3`. -/
theorem c3_counterexample :
    evaluate_retrieval_strategy (fun _ => [("a", 0)]) [⟨"q", ["a", "b", "c"]⟩]
        = "Mean Average Precision (MAP): 0.3333"
    ∧ mapScore (fun _ => [("a", 0)]) [⟨"q", ["a", "b", "c"]⟩] = 1/3
    ∧ ((3333 : ℚ) / 10000) ≠ 1/3 := by
  have hmap : mapScore (fun _ => [("a", 0)]) [⟨"q", ["a", "b", "c"]⟩] = 1/3 := by
    norm_num [mapScore, evalFold, average_precision, apScan]
    simp
  refine ⟨?_, hmap, by norm_num⟩
  unfold evaluate_retrieval_strategy
  rw [hmap]
  norm_num [formatFixed4, roundHalfEven, pad4]
  rfl

/-- C3 (amended).  The underlying `map_score` of
`evaluate_retrieval_strategy` is the arithmetic mean of the per-example
average-precision scores over all examples, and is `0` (not an error)
for an empty dataset; the function returns that score only embedded in a
report string, rounded to four decimal places, rather than as a float. -/
theorem c3_map_score (strategy : String → List (String × ℚ)) (dataset : List Example) :
    (dataset ≠ [] →
      mapScore strategy dataset
        = (dataset.map fun e => average_precision e.snippets (strategy e.user_input)).sum
            / (dataset.length : ℚ))
    ∧ (dataset = [] → mapScore strategy dataset = 0)
    ∧ evaluate_retrieval_strategy strategy dataset
        = "Mean Average Precision (MAP): " ++ formatFixed4 (mapScore strategy dataset) := by
  refine ⟨?_, ?_, rfl⟩
  · intro hne
    unfold mapScore
    rw [evalFold_eq]
    simp only
    rw [if_pos (List.length_pos.mpr hne)]
  · intro h
    subst h
    simp [mapScore, evalFold]

/-- C3 witness: a one-example dataset where the retrieved list hits the
single relevant snippet, so the mean equals `1/1 = 1`. -/
theorem c3_witness :
    (([⟨"q", ["a"]⟩] : List Example) ≠ [])
    ∧ mapScore (fun _ => [("a", 0)]) [⟨"q", ["a"]⟩]
        = (([⟨"q", ["a"]⟩] : List Example).map fun e =>
            average_precision e.snippets ((fun _ => [("a", (0 : ℚ))]) e.user_input)).sum
            / ((([⟨"q", ["a"]⟩] : List Example).length : ℕ) : ℚ) :=
  ⟨by simp, (c3_map_score (fun _ => [("a", 0)]) [⟨"q", ["a"]⟩]).1 (by simp)⟩

/-- C6 counterexample.  With duplicate retrieved passages the source
`average_precision` exceeds `1`: a single relevant item retrieved twice
scores `(1/1 + 2/2) / 1 = 2`. -/
theorem c6_counterexample :
    average_precision ["a"] [("a", 0), ("a", 0)] = 2 ∧ (1 : ℚ) < 2 := by
  constructor
  · norm_num [average_precision, apScan]
  · norm_num

/-- C6 (amended).  `average_precision` is always nonnegative and is `0`
for an empty relevant list; it is at most `1` provided the retrieved
passages are pairwise distinct (with duplicates it can exceed `1`, see
the counterexample); and it equals exactly `1` whenever the retrieved
list consists of `|relevant|` passages from the relevant set followed
only by irrelevant ones. -/
theorem c6_ap_bounds (relevant_items : List String)
    (retrieved_items : List (String × ℚ)) :
    0 ≤ average_precision relevant_items retrieved_items
    ∧ (relevant_items = [] → average_precision relevant_items retrieved_items = 0)
    ∧ ((retrieved_items.map Prod.fst).Nodup →
        average_precision relevant_items retrieved_items ≤ 1)
    ∧ (∀ front back : List (String × ℚ), retrieved_items = front ++ back →
        relevant_items ≠ [] →
        (∀ p ∈ front, p.1 ∈ relevant_items) →
        (∀ p ∈ back, p.1 ∉ relevant_items) →
        front.length = relevant_items.length →
        average_precision relevant_items retrieved_items = 1) := by
  refine ⟨?_, ?_, ?_, ?_⟩
  · unfold average_precision
    by_cases h : relevant_items.isEmpty
    · simp [h]
    · rw [if_neg h]
      exact div_nonneg (apScan_nonneg _ _ 1 0 0 le_rfl) (Nat.cast_nonneg _)
  · intro h
    subst h
    simp [average_precision]
  · intro hnd
    unfold average_precision
    by_cases h : relevant_items.isEmpty
    · simp [h]
    · rw [if_neg h]
      have hne : relevant_items ≠ [] := by
        simpa [List.isEmpty_iff] using h
      have hlen : (0 : ℚ) < (relevant_items.length : ℚ) := by
        exact_mod_cast List.length_pos.mpr hne
      rw [div_le_one hlen]
      have h1 := apScan_le_hits relevant_items retrieved_items 1 0 0 (by omega)
      have h2 := filter_hits_le relevant_items retrieved_items hnd
      have h2q : (((retrieved_items.filter fun p => p.1 ∈ relevant_items).length : ℕ) : ℚ)
          ≤ (relevant_items.length : ℚ) := by exact_mod_cast h2
      linarith
  · intro front back heq hne hfront hback hlen
    subst heq
    unfold average_precision
    rw [if_neg (by simpa [List.isEmpty_iff] using hne)]
    rw [apScan_all_hit relevant_items front back 1 0 0 hfront rfl]
    rw [apScan_all_miss relevant_items back _ _ _ hback]
    rw [hlen, zero_add]
    exact div_self (Nat.cast_ne_zero.mpr (by
      simpa [List.length_eq_zero] using hne))

/-- C6 witness: relevant set `{"a"}`, retrieval `[("a", 0), ("b", 1)]` —
distinct passages, the relevant one first: the score is between `0` and
`1` and equals exactly `1`. -/
theorem c6_witness :
    (0 : ℚ) ≤ average_precision ["a"] [("a", 0), ("b", 1)]
    ∧ (([("a", (0 : ℚ)), ("b", (1 : ℚ))].map Prod.fst).Nodup
        ∧ average_precision ["a"] [("a", 0), ("b", 1)] ≤ 1)
    ∧ average_precision ["a"] [("a", 0), ("b", 1)] = 1 := by
  have h := c6_ap_bounds ["a"] [("a", 0), ("b", 1)]
  have hnd : ([("a", (0 : ℚ)), ("b", (1 : ℚ))].map Prod.fst).Nodup := by
    simp
  refine ⟨h.1, ⟨hnd, h.2.2.1 hnd⟩, ?_⟩
  refine h.2.2.2 [("a", 0)] [("b", 1)] rfl (by simp) ?_ ?_ (by simp)
  · intro p hp
    simp only [List.mem_singleton] at hp
    subst hp
    simp
  · intro p hp
    simp only [List.mem_singleton] at hp
    subst hp
    simp

end Exercise
